import Mathlib

/-!
Verification of the persistence layer of the xAI_Coder chat client.

The repository's core is a local persistence stack: an IndexedDB wrapper
(`src/lib/localDb.ts`, class `LocalDatabase`) holding a `settings` table
(unique index on `user_id`, primary key `id`) and a `messages` table
(compound index on `(user_id, timestamp)`), a settings reconciler hook
(`useSettings`) merging a localStorage flat backup, the IndexedDB store and
an optional Supabase remote store, a messages hook (`useMessages`) keeping
an optimistic in-memory list, and the completion-response handling in
`App.tsx`'s `sendMessage`.

The shallow embedding below models each table as a list of rows, IndexedDB
requests as pure functions on those lists (failure injected through
explicit Boolean flags where the code catches errors), promise
rejection as `Except`, and the nondeterministic bits of the environment
(`crypto.randomUUID()`, `new Date().toISOString()`, `Date.now()`) as
explicit parameters.  JSON (de)serialization of attachments is modelled as
the identity embedding, since no claim inspects the serialized form.
-/

namespace XAICoder

/-! ## Data model (`src/types.ts`, `src/lib/localDb.ts`) -/

inductive Role where
  | user
  | assistant
deriving DecidableEq, Repr

/-- Shape `FileAttachment` from `src/types.ts`. -/
structure FileAttachment where
  id : String
  name : String
  size : Nat
  type : String
  content : String
deriving DecidableEq, Repr

/-- Shape `Message` from `src/types.ts` (display shape). -/
structure Message where
  role : Role
  content : String
  timestamp : Int
  attachments : Option (List FileAttachment)
deriving DecidableEq, Repr

/-- Shape `Settings` from `src/types.ts` (the hook's in-memory shape). -/
structure Settings where
  apiKey : String
  baseUrl : String
  model : String
deriving DecidableEq, Repr

/-- Row shape `LocalSettings` of the IndexedDB `settings` table (`localDb.ts`). -/
structure LocalSettings where
  id : String
  user_id : String
  api_key : String
  base_url : String
  model : String
  created_at : String
  updated_at : String
deriving DecidableEq, Repr

/-- Row shape `LocalMessage` of the IndexedDB `messages` table (`localDb.ts`).
The `attachments` field is `JSON.stringify`ed in the source; serialization
is modelled as the identity, so the field keeps the structured shape. -/
structure LocalMessage where
  id : String
  user_id : String
  role : Role
  content : String
  timestamp : Int
  attachments : Option (List FileAttachment)
  created_at : String
deriving DecidableEq, Repr

/-- The settings argument of `LocalDatabase.saveSettings`. -/
structure SettingsInput where
  api_key : String
  base_url : String
  model : String
deriving DecidableEq, Repr

namespace LocalDatabase

/-! ## `LocalDatabase` settings table (`src/lib/localDb.ts` 194-318) -/

/-- Model of `store.index('user_id').get(userId)`: the unique index lookup.  With the
uniqueness constraint there is at most one matching row; `find?` returns the
first one. -/
def indexGetSettings (tbl : List LocalSettings) (userId : String) : Option LocalSettings :=
  tbl.find? (fun q => q.user_id == userId)

/-- Model of `store.put(row)` keyed on `keyPath: 'id'`: replace the row with the same
primary key if present, otherwise insert. -/
def putSettings (tbl : List LocalSettings) (row : LocalSettings) : List LocalSettings :=
  if tbl.any (fun q => q.id == row.id) then
    tbl.map (fun q => if q.id == row.id then row else q)
  else
    tbl ++ [row]

/-- The `settingsData` record built in `saveSettings` (localDb.ts 201-209)
before the existing-row check. -/
def mkSettingsRow (userId : String) (s : SettingsInput) (freshId nowS : String) : LocalSettings :=
  { id := freshId, user_id := userId, api_key := s.api_key, base_url := s.base_url,
    model := s.model, created_at := nowS, updated_at := nowS }

/-- Model of `LocalDatabase.saveSettings` (localDb.ts 194-247): look the existing row
up by the `user_id` index; if found, reuse its primary key and `created_at`;
then `put`.  `freshId` stands for `crypto.randomUUID()` and `nowS` for
`new Date().toISOString()`. -/
def saveSettings (tbl : List LocalSettings) (userId : String) (s : SettingsInput)
    (freshId nowS : String) : List LocalSettings :=
  let base := mkSettingsRow userId s freshId nowS
  match indexGetSettings tbl userId with
  | some existing =>
      putSettings tbl { base with id := existing.id, created_at := existing.created_at }
  | none => putSettings tbl base

/-- Model of `LocalDatabase.loadSettings` (localDb.ts 249-278): `index.get(userId)`,
resolving `null` (here `none`) on absence. -/
def loadSettings (tbl : List LocalSettings) (userId : String) : Option LocalSettings :=
  indexGetSettings tbl userId

end LocalDatabase

/-! ## Helper lemmas about the settings table -/

namespace LocalDatabase

/-- If no element of `l₁` matches, `find?` over an append continues in `l₂`. -/
lemma find?_append_of_none {α : Type} {p : α → Bool} {l₁ : List α} (l₂ : List α)
    (h : l₁.find? p = none) : (l₁ ++ l₂).find? p = l₂.find? p := by
  induction l₁ with
  | nil => rfl
  | cons a t ih =>
      cases hp : p a with
      | true => rw [List.find?_cons_of_pos _ hp] at h; exact absurd h (by simp)
      | false =>
          rw [List.find?_cons_of_neg _ (by simp [hp])] at h
          rw [List.cons_append, List.find?_cons_of_neg _ (by simp [hp])]
          exact ih h

/-- When `userId` has no row yet and the fresh primary key is unused,
`saveSettings` appends one new row. -/
lemma saveSettings_insert (tbl : List LocalSettings) (u : String) (s : SettingsInput)
    (freshId nowS : String)
    (hFresh : ∀ q ∈ tbl, q.id ≠ freshId)
    (hNone : indexGetSettings tbl u = none) :
    saveSettings tbl u s freshId nowS = tbl ++ [mkSettingsRow u s freshId nowS] := by
  unfold saveSettings
  rw [hNone]
  unfold putSettings
  have hAny : tbl.any (fun q => q.id == (mkSettingsRow u s freshId nowS).id) = false := by
    rw [List.any_eq_false]
    intro q hq
    simpa [mkSettingsRow] using hFresh q hq
  simp [hAny]

/-- When a row for `userId` exists, `saveSettings` rewrites it in place
(same primary key), leaving every other row unchanged. -/
lemma saveSettings_update (tbl : List LocalSettings) (u : String) (s : SettingsInput)
    (freshId nowS : String) (old : LocalSettings)
    (hSome : indexGetSettings tbl u = some old) :
    saveSettings tbl u s freshId nowS =
      tbl.map (fun q => if q.id == old.id then
        { mkSettingsRow u s freshId nowS with id := old.id, created_at := old.created_at }
        else q) := by
  unfold saveSettings
  rw [hSome]
  unfold putSettings
  have hMem : old ∈ tbl := List.mem_of_find?_eq_some hSome
  have hAny : tbl.any (fun q => q.id ==
      ({ mkSettingsRow u s freshId nowS with id := old.id, created_at := old.created_at } :
        LocalSettings).id) = true := by
    rw [List.any_eq_true]
    exact ⟨old, hMem, by simp⟩
  simp [hAny]

/-- With pairwise-distinct primary keys, rewriting the row found for `u`
with a row that still has `user_id = u` makes `find?` return the new row. -/
lemma find?_map_update (tbl : List LocalSettings) (u : String) (old new : LocalSettings)
    (hnd : (tbl.map (fun q => q.id)).Nodup)
    (hf : tbl.find? (fun q => q.user_id == u) = some old)
    (hnew : new.user_id = u) :
    (tbl.map (fun q => if q.id == old.id then new else q)).find?
      (fun q => q.user_id == u) = some new := by
  induction tbl with
  | nil => simp at hf
  | cons r rest ih =>
      cases hr : (r.user_id == u) with
      | true =>
          rw [@List.find?_cons_of_pos _ (fun (q : LocalSettings) => q.user_id == u)
            _ rest hr] at hf
          have hro : r = old := by injection hf
          subst hro
          have hmapcons : (r :: rest).map (fun q => if q.id == r.id then new else q)
              = new :: rest.map (fun q => if q.id == r.id then new else q) := by
            rw [List.map_cons, if_pos (by simp)]
          rw [hmapcons]
          exact @List.find?_cons_of_pos _ (fun (q : LocalSettings) => q.user_id == u) _ _
            (by simp [hnew])
      | false =>
          rw [@List.find?_cons_of_neg _ (fun (q : LocalSettings) => q.user_id == u) _ rest
            (by simp [hr])] at hf
          have hOldMem : old ∈ rest := List.mem_of_find?_eq_some hf
          have hIdNe : r.id ≠ old.id := by
            intro hEq
            have : r.id ∈ rest.map (fun q => q.id) :=
              List.mem_map.mpr ⟨old, hOldMem, hEq.symm⟩
            simp only [List.map_cons, List.nodup_cons] at hnd
            exact hnd.1 this
          have hndRest : (rest.map (fun q => q.id)).Nodup := by
            simp only [List.map_cons, List.nodup_cons] at hnd
            exact hnd.2
          have hmapcons : (r :: rest).map (fun q => if q.id == old.id then new else q)
              = r :: rest.map (fun q => if q.id == old.id then new else q) := by
            rw [List.map_cons, if_neg (by simp [hIdNe])]
          rw [hmapcons]
          rw [@List.find?_cons_of_neg _ (fun (q : LocalSettings) => q.user_id == u) _ _
            (by simp [hr])]
          exact ih hndRest hf


/-- Rewriting the existing row for `u` with another row for `u` keeps the
per-user row count unchanged. -/
lemma countP_user_map_update (tbl : List LocalSettings) (u : String) (old new : LocalSettings)
    (hnd : (tbl.map (fun q => q.id)).Nodup)
    (hOldMem : old ∈ tbl)
    (hOldU : (old.user_id == u) = true)
    (hNewU : (new.user_id == u) = true) :
    (tbl.map (fun q => if q.id == old.id then new else q)).countP (fun q => q.user_id == u)
      = tbl.countP (fun q => q.user_id == u) := by
  rw [List.countP_map]
  apply List.countP_congr
  intro q hq
  by_cases hid : q.id = old.id
  · have hq_old : q = old := List.inj_on_of_nodup_map hnd hq hOldMem hid
    subst hq_old
    simp only [Function.comp]
    rw [if_pos (by simp)]
    simp [hNewU, hOldU]
  · simp only [Function.comp]
    rw [if_neg (by simp [hid])]

/-- Saving then loading returns a row carrying exactly the saved fields. -/
lemma saveSettings_load (tbl : List LocalSettings) (u : String) (s : SettingsInput)
    (freshId nowS : String)
    (hnd : (tbl.map (fun q => q.id)).Nodup)
    (hFresh : ∀ q ∈ tbl, q.id ≠ freshId) :
    ∃ row, loadSettings (saveSettings tbl u s freshId nowS) u = some row ∧
      row.user_id = u ∧ row.api_key = s.api_key ∧ row.base_url = s.base_url ∧
      row.model = s.model := by
  cases hGet : indexGetSettings tbl u with
  | none =>
      rw [saveSettings_insert tbl u s freshId nowS hFresh hGet]
      refine ⟨mkSettingsRow u s freshId nowS, ?_, rfl, rfl, rfl, rfl⟩
      unfold loadSettings indexGetSettings
      unfold indexGetSettings at hGet
      rw [find?_append_of_none _ hGet]
      exact @List.find?_cons_of_pos _ (fun (q : LocalSettings) => q.user_id == u) _ _
        (by simp [mkSettingsRow])
  | some old =>
      rw [saveSettings_update tbl u s freshId nowS old hGet]
      refine ⟨{ mkSettingsRow u s freshId nowS with id := old.id, created_at := old.created_at },
        ?_, rfl, rfl, rfl, rfl⟩
      unfold loadSettings indexGetSettings
      unfold indexGetSettings at hGet
      exact find?_map_update tbl u old _ hnd hGet rfl

/-- After a save the store holds exactly one row for the user, provided the
unique-index invariant held before. -/
lemma saveSettings_count_one (tbl : List LocalSettings) (u : String) (s : SettingsInput)
    (freshId nowS : String)
    (hnd : (tbl.map (fun q => q.id)).Nodup)
    (hFresh : ∀ q ∈ tbl, q.id ≠ freshId)
    (hUniq : tbl.countP (fun q => q.user_id == u) ≤ 1) :
    (saveSettings tbl u s freshId nowS).countP (fun q => q.user_id == u) = 1 := by
  cases hGet : indexGetSettings tbl u with
  | none =>
      rw [saveSettings_insert tbl u s freshId nowS hFresh hGet]
      rw [List.countP_append]
      unfold indexGetSettings at hGet
      have h0 : tbl.countP (fun q => q.user_id == u) = 0 :=
        List.countP_eq_zero.mpr (List.find?_eq_none.mp hGet)
      rw [h0]
      simp [List.countP, List.countP.go, mkSettingsRow]
  | some old =>
      rw [saveSettings_update tbl u s freshId nowS old hGet]
      unfold indexGetSettings at hGet
      have hOldMem : old ∈ tbl := List.mem_of_find?_eq_some hGet
      have hOldU : (old.user_id == u) = true :=
        @List.find?_some _ (fun (q : LocalSettings) => q.user_id == u) _ _ hGet
      rw [countP_user_map_update tbl u old _ hnd hOldMem hOldU (by simp [mkSettingsRow])]
      have hpos : 0 < tbl.countP (fun q => q.user_id == u) :=
        List.countP_pos_iff.mpr ⟨old, hOldMem, hOldU⟩
      omega

/-- In the update case the surviving row keeps the pre-existing primary key
and creation time. -/
lemma saveSettings_preserves_key (tbl : List LocalSettings) (u : String) (s : SettingsInput)
    (freshId nowS : String) (old : LocalSettings)
    (hnd : (tbl.map (fun q => q.id)).Nodup)
    (hGet : indexGetSettings tbl u = some old) :
    ∃ row, loadSettings (saveSettings tbl u s freshId nowS) u = some row ∧
      row.id = old.id ∧ row.created_at = old.created_at := by
  rw [saveSettings_update tbl u s freshId nowS old hGet]
  refine ⟨{ mkSettingsRow u s freshId nowS with id := old.id, created_at := old.created_at },
    ?_, rfl, rfl⟩
  unfold loadSettings indexGetSettings
  unfold indexGetSettings at hGet
  exact find?_map_update tbl u old _ hnd hGet rfl

/-! ## `LocalDatabase` messages table (`src/lib/localDb.ts` 64-192, 320-366) -/

/-- The message argument of `LocalDatabase.saveMessage` (localDb.ts 64). -/
structure MsgInput where
  role : Role
  content : String
  timestamp : Int
  attachments : Option (List FileAttachment)
deriving DecidableEq, Repr

/-- The `messageData` record built in `saveMessage` (localDb.ts 70-78).
`freshId` stands for `crypto.randomUUID()`, `createdAt` for
`new Date().toISOString()`; attachment serialization is the identity. -/
def mkMessageRow (userId : String) (m : MsgInput) (freshId createdAt : String) : LocalMessage :=
  { id := freshId, user_id := userId, role := m.role, content := m.content,
    timestamp := m.timestamp, attachments := m.attachments, created_at := createdAt }

/-- Model of `LocalDatabase.saveMessage` (localDb.ts 64-97): `store.add(messageData)`.
`add` rejects when the primary key already exists; an open failure
(`openFails`) or rejected write rejects the promise (the catch rethrows). -/
def saveMessage (tbl : List LocalMessage) (userId : String) (m : MsgInput)
    (freshId createdAt : String) (openFails : Bool) : Except Unit (List LocalMessage) :=
  if openFails then .error ()
  else if tbl.any (fun r => r.id == freshId) then .error ()
  else .ok (tbl ++ [mkMessageRow userId m freshId createdAt])

/-- The index-key order of the `user_timestamp` compound index restricted to
one user: entries with equal keys are returned in primary-key order. -/
def keyLE (a b : LocalMessage) : Prop :=
  a.timestamp < b.timestamp ∨ (a.timestamp = b.timestamp ∧ a.id ≤ b.id)

instance : DecidableRel keyLE := fun a b =>
  inferInstanceAs (Decidable (a.timestamp < b.timestamp ∨
    (a.timestamp = b.timestamp ∧ a.id ≤ b.id)))

instance : IsTotal LocalMessage keyLE where
  total a b := by
    rcases lt_trichotomy a.timestamp b.timestamp with h | h | h
    · exact Or.inl (Or.inl h)
    · rcases le_total a.id b.id with h' | h'
      · exact Or.inl (Or.inr ⟨h, h'⟩)
      · exact Or.inr (Or.inr ⟨h.symm, h'⟩)
    · exact Or.inr (Or.inl h)

instance : IsTrans LocalMessage keyLE where
  trans a b c hab hbc := by
    rcases hab with h1 | ⟨h1, h1'⟩ <;> rcases hbc with h2 | ⟨h2, h2'⟩
    · exact Or.inl (h1.trans h2)
    · exact Or.inl (h2 ▸ h1)
    · exact Or.inl (h1 ▸ h2)
    · exact Or.inr ⟨h1.trans h2, le_trans h1' h2'⟩

/-- Membership in the cursor range `IDBKeyRange.bound([userId, 0],
[userId, Date.now()])` over the `user_timestamp` index (localDb.ts 108). -/
def msgInRange (userId : String) (now : Int) (r : LocalMessage) : Bool :=
  r.user_id == userId && decide (0 ≤ r.timestamp) && decide (r.timestamp ≤ now)

/-- The loop guard of the `loadMessages` cursor callback (localDb.ts 115):
`!limit || messages.length < limit`.  In JavaScript `!limit` is `true` for a
missing limit and for `limit === 0`. -/
def limContinue (limit : Option Int) (len : Nat) : Bool :=
  match limit with
  | none => true
  | some n => n == 0 || decide ((len : Int) < n)

/-- The cursor loop of `loadMessages` (localDb.ts 111-124): push the row,
then either continue the cursor or resolve with what was collected. -/
def loadLoop (limit : Option Int) : List LocalMessage → List LocalMessage → List LocalMessage
  | acc, [] => acc
  | acc, r :: rest =>
      let acc2 := acc ++ [r]
      if limContinue limit acc2.length then loadLoop limit acc2 rest else acc2

/-- Model of `LocalDatabase.loadMessages` (localDb.ts 99-135): open a `next`
(ascending) cursor on the `user_timestamp` index over the range
`[userId, 0] .. [userId, now]` and collect rows under the limit guard.
The cursor enumerates matching rows in index-key order. -/
def loadMessages (tbl : List LocalMessage) (userId : String) (limit : Option Int)
    (now : Int) : List LocalMessage :=
  loadLoop limit [] (List.insertionSort keyLE (tbl.filter (msgInRange userId now)))

/-- Model of `LocalDatabase.getMessageCount` (localDb.ts 169-192):
`index('user_id').count(IDBKeyRange.only(userId))`; an open or query failure
rejects (the catch logs and rethrows). -/
def getMessageCount (tbl : List LocalMessage) (userId : String) (fails : Bool) :
    Except Unit Nat :=
  if fails then .error ()
  else .ok (tbl.countP (fun r => r.user_id == userId))

/-- The two IndexedDB object stores, as one database state. -/
structure DBState where
  settings : List LocalSettings
  messages : List LocalMessage
deriving DecidableEq, Repr

/-- Model of `checkComplete` inside `clearAllData` (localDb.ts 331-337): bump the
`completed` counter and report whether it reached `total`. -/
def checkComplete (completed total : Nat) : Nat × Bool :=
  (completed + 1, completed + 1 == total)

/-- The success callbacks of the two `clear()` requests processed in arrival
order: the 1-based index of the callback at which the promise resolves. -/
def clearResolveIndex : Option Nat :=
  let total := 2
  let (c1, done1) := checkComplete 0 total
  if done1 then some 1
  else
    let (_, done2) := checkComplete c1 total
    if done2 then some 2 else none

/-- Model of `LocalDatabase.clearAllData` (localDb.ts 320-366): one transaction over
both stores, `settingsStore.clear()` and `messagesStore.clear()`, resolving
through `checkComplete` once both succeed. -/
def clearAllData (db : DBState) : DBState × Option Nat :=
  ({ settings := [], messages := [] }, clearResolveIndex)

/-! ## Helper lemmas about the messages table -/

/-- With no limit, or the falsy limit `0`, the cursor loop drains the whole
range. -/
lemma loadLoop_all {limit : Option Int} (h : limit = none ∨ limit = some 0) :
    ∀ (l acc : List LocalMessage), loadLoop limit acc l = acc ++ l := by
  intro l
  induction l with
  | nil => intro acc; simp [loadLoop]
  | cons r rest ih =>
      intro acc
      have hCont : ∀ len, limContinue limit len = true := by
        intro len
        rcases h with h | h <;> simp [h, limContinue]
      simp only [loadLoop, hCont, if_true]
      rw [ih]
      simp

/-- With a positive limit the cursor loop returns the first
`limit - acc.length` rows beyond the accumulator. -/
lemma loadLoop_take_pos {n : Int} (hn : 1 ≤ n) :
    ∀ (l acc : List LocalMessage), acc.length < n.toNat →
      loadLoop (some n) acc l = acc ++ l.take (n.toNat - acc.length) := by
  intro l
  induction l with
  | nil => intro acc _; simp [loadLoop]
  | cons r rest ih =>
      intro acc hlt
      simp only [loadLoop]
      by_cases hC : limContinue (some n) (acc ++ [r]).length = true
      · rw [if_pos hC]
        have hlen : (acc ++ [r]).length < n.toNat ∨ (acc ++ [r]).length = n.toNat := by
          have := hC
          simp only [limContinue] at this
          rcases Bool.or_eq_true_iff.mp this with h0 | hdec
          · exfalso
            have : n = 0 := by simpa using h0
            omega
          · have hlt2 : ((acc ++ [r]).length : Int) < n := of_decide_eq_true hdec
            left
            omega
        rcases hlen with hlen | hlen
        · rw [ih (acc ++ [r]) hlen]
          have h1 : n.toNat - acc.length = (n.toNat - (acc ++ [r]).length) + 1 := by
            simp only [List.length_append, List.length_cons, List.length_nil] at *
            omega
          rw [h1, List.take_succ_cons]
          simp [List.append_assoc]
        · exfalso
          simp only [limContinue] at hC
          rcases Bool.or_eq_true_iff.mp hC with h0 | hdec
          · have : n = 0 := by simpa using h0
            omega
          · have : ((acc ++ [r]).length : Int) < n := of_decide_eq_true hdec
            omega
      · rw [if_neg hC]
        have h1 : n.toNat - acc.length = 1 := by
          simp only [limContinue, Bool.or_eq_true_iff, not_or] at hC
          push_neg at hC
          have h2 : ¬ (((acc ++ [r]).length : Int) < n) := by
            intro hx
            exact hC.2 (decide_eq_true hx)
          simp only [List.length_append, List.length_cons, List.length_nil] at h2 ⊢
          push_cast at h2
          omega
        rw [h1]
        simp

/-- Whatever the limit, the loop returns a prefix of the enumerated rows. -/
lemma loadLoop_pre {limit : Option Int} :
    ∀ (l acc : List LocalMessage), ∃ k, loadLoop limit acc l = acc ++ l.take k := by
  intro l
  induction l with
  | nil => intro acc; exact ⟨0, by simp [loadLoop]⟩
  | cons r rest ih =>
      intro acc
      simp only [loadLoop]
      by_cases hC : limContinue limit (acc ++ [r]).length = true
      · rw [if_pos hC]
        obtain ⟨k, hk⟩ := ih (acc ++ [r])
        exact ⟨k + 1, by rw [hk, List.take_succ_cons]; simp [List.append_assoc]⟩
      · rw [if_neg hC]
        exact ⟨1, by simp⟩

/-- One item of a sequence of `saveMessage` calls, bundling the per-call
environment (`crypto.randomUUID()`, `new Date().toISOString()`). -/
structure SaveItem where
  msg : MsgInput
  freshId : String
  createdAt : String
deriving DecidableEq, Repr

/-- A sequence of awaited `saveMessage` calls for one user, stopping at the
first rejection. -/
def saveAll (userId : String) : List LocalMessage → List SaveItem →
    Except Unit (List LocalMessage)
  | tbl, [] => .ok tbl
  | tbl, it :: rest =>
      match saveMessage tbl userId it.msg it.freshId it.createdAt false with
      | .error e => .error e
      | .ok t => saveAll userId t rest

/-- With pairwise-distinct fresh identifiers that do not collide with the
existing rows, a save sequence succeeds and appends its rows in call order. -/
lemma saveAll_eq (userId : String) :
    ∀ (items : List SaveItem) (tbl : List LocalMessage),
      (items.map (fun it => it.freshId)).Nodup →
      (∀ it ∈ items, ∀ r ∈ tbl, r.id ≠ it.freshId) →
      saveAll userId tbl items =
        .ok (tbl ++ items.map (fun it => mkMessageRow userId it.msg it.freshId it.createdAt)) := by
  intro items
  induction items with
  | nil => intro tbl _ _; simp [saveAll]
  | cons it rest ih =>
      intro tbl hnd hFresh
      have hAny : tbl.any (fun r => r.id == it.freshId) = false := by
        rw [List.any_eq_false]
        intro r hr
        simpa using hFresh it (by simp) r hr
      simp only [saveAll, saveMessage, if_neg (by simp : ¬ (false = true)), hAny,
        Bool.false_eq_true, if_false]
      have hndRest : (rest.map (fun x => x.freshId)).Nodup := by
        simp only [List.map_cons, List.nodup_cons] at hnd
        exact hnd.2
      have hFreshRest : ∀ x ∈ rest, ∀ r ∈ tbl ++ [mkMessageRow userId it.msg it.freshId it.createdAt],
          r.id ≠ x.freshId := by
        intro x hx r hr
        rcases List.mem_append.mp hr with hr | hr
        · exact hFresh x (by simp [hx]) r hr
        · have hr1 : r = mkMessageRow userId it.msg it.freshId it.createdAt := by
            simpa using hr
          subst hr1
          simp only [mkMessageRow]
          intro hEq
          simp only [List.map_cons, List.nodup_cons] at hnd
          exact hnd.1 (List.mem_map.mpr ⟨x, hx, hEq.symm⟩)
      rw [ih (tbl ++ [mkMessageRow userId it.msg it.freshId it.createdAt]) hndRest hFreshRest]
      simp

/-- One `saveSettings` call's argument and environment, for stating
repeated-save properties. -/
structure SettingsCall where
  s : SettingsInput
  freshId : String
  nowS : String
deriving DecidableEq, Repr

/-- A sequence of awaited `saveSettings` calls for one user. -/
def saveSettingsSeq (u : String) : List LocalSettings → List SettingsCall → List LocalSettings
  | tbl, [] => tbl
  | tbl, c :: rest => saveSettingsSeq u (saveSettings tbl u c.s c.freshId c.nowS) rest

/-- Updating in place keeps the list of primary keys unchanged. -/
lemma ids_map_update (tbl : List LocalSettings) (old new : LocalSettings)
    (hid : new.id = old.id) :
    (tbl.map (fun q => if q.id == old.id then new else q)).map (fun q => q.id)
      = tbl.map (fun q => q.id) := by
  rw [List.map_map]
  apply List.map_congr_left
  intro q _
  by_cases h : q.id = old.id
  · simp [Function.comp, h, hid]
  · simp [Function.comp, h]

/-- Once a row exists for `u`, any further sequence of saves keeps exactly
that row: the primary key and `created_at` survive, and the per-user row
count never changes. -/
lemma saveSettingsSeq_maintains (u : String) (calls : List SettingsCall) :
    ∀ (tbl : List LocalSettings) (old : LocalSettings),
      (tbl.map (fun q => q.id)).Nodup →
      loadSettings tbl u = some old →
      ∃ row, loadSettings (saveSettingsSeq u tbl calls) u = some row ∧
        row.id = old.id ∧ row.created_at = old.created_at ∧
        (saveSettingsSeq u tbl calls).countP (fun q => q.user_id == u)
          = tbl.countP (fun q => q.user_id == u) ∧
        ((saveSettingsSeq u tbl calls).map (fun q => q.id)).Nodup := by
  induction calls with
  | nil =>
      intro tbl old hnd hGet
      exact ⟨old, hGet, rfl, rfl, rfl, hnd⟩
  | cons c rest ih =>
      intro tbl old hnd hGet
      have hGet' : indexGetSettings tbl u = some old := hGet
      have hUpd := saveSettings_update tbl u c.s c.freshId c.nowS old hGet'
      have hOldMem : old ∈ tbl := List.mem_of_find?_eq_some hGet'
      have hOldU : (old.user_id == u) = true :=
        @List.find?_some _ (fun (q : LocalSettings) => q.user_id == u) _ _ hGet'
      set new : LocalSettings :=
        { mkSettingsRow u c.s c.freshId c.nowS with id := old.id, created_at := old.created_at }
        with hnewdef
      have hids : ((saveSettings tbl u c.s c.freshId c.nowS).map (fun q => q.id))
          = tbl.map (fun q => q.id) := by
        rw [hUpd]
        exact ids_map_update tbl old new rfl
      have hnd' : ((saveSettings tbl u c.s c.freshId c.nowS).map (fun q => q.id)).Nodup := by
        rw [hids]; exact hnd
      have hGetNew : loadSettings (saveSettings tbl u c.s c.freshId c.nowS) u = some new := by
        rw [hUpd]
        unfold loadSettings indexGetSettings
        unfold indexGetSettings at hGet'
        exact find?_map_update tbl u old new hnd hGet' rfl
      have hcount : (saveSettings tbl u c.s c.freshId c.nowS).countP
          (fun q => q.user_id == u) = tbl.countP (fun q => q.user_id == u) := by
        rw [hUpd]
        exact countP_user_map_update tbl u old new hnd hOldMem hOldU (by simp [hnewdef, mkSettingsRow])
      obtain ⟨row, h1, h2, h3, h4, h5⟩ :=
        ih (saveSettings tbl u c.s c.freshId c.nowS) new hnd' hGetNew
      exact ⟨row, by simpa [saveSettingsSeq] using h1,
        by simpa [hnewdef] using h2, by simpa [hnewdef] using h3,
        by rw [saveSettingsSeq] at *; rw [h4, hcount],
        by simpa [saveSettingsSeq] using h5⟩

end LocalDatabase

/-! ## Settings reconciler (`useSettings`, `src/unnamed/part_000`) -/

namespace UseSettings

/-- Constant `DEFAULT_SETTINGS` (part_000 6-10). -/
def DEFAULT_SETTINGS : Settings :=
  { apiKey := "", baseUrl := "https://api.x.ai", model := "auto" }

/-- Model of `loadLocalSettings` (part_000 19-35): read the flat localStorage backup.
The stored JSON blob is modelled as an already-parsed, fully-populated
`Settings` value, so `{ ...DEFAULT_SETTINGS, ...parsed }` is `parsed`;
absence (or a parse failure, which the catch maps to the same result)
yields the defaults. -/
def loadLocalSettings (flat : Option Settings) : Settings :=
  match flat with
  | some parsed => parsed
  | none => DEFAULT_SETTINGS

/-- Model of `saveLocalSettings` (part_000 38-45): overwrite the flat backup blob. -/
def saveLocalSettings (s : Settings) : Option Settings :=
  some s

/-- Model of `loadLocalDbSettings` (part_000 67-87): `localDb.loadSettings` converted
to the hook shape; skipped when IndexedDB is unsupported, `none` on
absence (read failures are caught to `none` as well). -/
def loadLocalDbSettings (db : List LocalSettings) (userId : String) (idb : Bool) :
    Option Settings :=
  if idb then
    match LocalDatabase.loadSettings db userId with
    | some d => some { apiKey := d.api_key, baseUrl := d.base_url, model := d.model }
    | none => none
  else none

/-- Model of `saveLocalDbSettings` (part_000 48-64): `localDb.saveSettings` with the
hook shape; skipped when IndexedDB is unsupported (write failures are
caught, leaving the store unchanged; the success path is modelled). -/
def saveLocalDbSettings (db : List LocalSettings) (userId : String) (s : Settings)
    (idb : Bool) (freshId nowS : String) : List LocalSettings :=
  if idb then
    LocalDatabase.saveSettings db userId
      { api_key := s.apiKey, base_url := s.baseUrl, model := s.model } freshId nowS
  else db

/-- One row of the remote `user_settings` table. -/
structure RemoteRow where
  user_id : String
  api_key : String
  base_url : String
  model : String
deriving DecidableEq, Repr

/-- Outcome of the remote `maybeSingle()` query in `loadSettings`
(part_000 111-115).  `throws` covers both an unconfigured client
(`supabase` is `null`, so the member access throws) and a query that
throws before completing; `queryError` is a resolved `{ error }`. -/
inductive RemoteOutcome where
  | throws
  | queryError
  | noRow
  | row (r : RemoteRow)
deriving DecidableEq, Repr

/-- The three persistence tiers seen by one `loadSettings` call. -/
structure World where
  flat : Option Settings
  db : List LocalSettings
  remote : RemoteOutcome
deriving DecidableEq, Repr

/-- Model of `loadSettings` of the hook (part_000 92-149).  Returns the finally
resolved in-memory settings (the last `setSettings` call; the tentative
early `setSettings(localSettings)` at line 108-110 is overwritten by every
exit path) together with the post-call state of the two local tiers. -/
def loadSettings (w : World) (userId : String) (idb : Bool) (freshId nowS : String) :
    Settings × World :=
  let localSettings := loadLocalSettings w.flat
  let localDbSettings := loadLocalDbSettings w.db userId idb
  let fallbackSettings :=
    match localDbSettings with
    | some s => if s.apiKey != "" then s else localSettings
    | none => localSettings
  match w.remote with
  | RemoteOutcome.throws =>
      let ls := loadLocalSettings w.flat
      let ldb := loadLocalDbSettings w.db userId idb
      (match ldb with
       | some s => if s.apiKey != "" then s else ls
       | none => ls,
       w)
  | RemoteOutcome.queryError => (fallbackSettings, w)
  | RemoteOutcome.noRow => (fallbackSettings, w)
  | RemoteOutcome.row r =>
      let dbSettings : Settings :=
        { apiKey := r.api_key, baseUrl := r.base_url, model := r.model }
      (dbSettings,
       { w with flat := saveLocalSettings dbSettings,
                db := saveLocalDbSettings w.db userId dbSettings idb freshId nowS })

/-- The observable steps of one `updateSettings` call. -/
inductive SaveEv where
  | flatWrite
  | dbWrite
  | memUpdate
  | remoteUpsert
deriving DecidableEq, Repr

/-- Outcome of the remote upsert (part_000 167-176): resolves cleanly,
resolves with an `{ error }` object, or throws. -/
inductive RemoteSaveOutcome where
  | ok
  | errorResult
  | throws
deriving DecidableEq, Repr

/-- The `localStorage.setItem` attempt inside `saveLocalSettings`: the write
is attempted and may throw. -/
def setItemEv (fails : Bool) : List SaveEv × Except Unit Unit :=
  ([SaveEv.flatWrite], if fails then Except.error () else Except.ok ())

/-- Model of `saveLocalSettings` as called from `updateSettings`: the catch swallows
any storage failure. -/
def saveLocalSettingsEv (fails : Bool) : List SaveEv × Except Unit Unit :=
  ((setItemEv fails).1, Except.ok ())

/-- Model of `saveLocalDbSettings` as called from `updateSettings`: skipped when
IndexedDB is unsupported; the write attempt's failure is caught. -/
def saveLocalDbSettingsEv (idb fails : Bool) : List SaveEv × Except Unit Unit :=
  if idb then
    let attempt : List SaveEv × Except Unit Unit :=
      ([SaveEv.dbWrite], if fails then Except.error () else Except.ok ())
    (attempt.1, Except.ok ())
  else ([], Except.ok ())

/-- The remote `upsert` call: `.ok none` on success, `.ok (some ())` when it
resolves with an error object, `.error` when it throws. -/
def upsertEv (ro : RemoteSaveOutcome) : List SaveEv × Except Unit (Option Unit) :=
  match ro with
  | RemoteSaveOutcome.ok => ([SaveEv.remoteUpsert], Except.ok none)
  | RemoteSaveOutcome.errorResult => ([SaveEv.remoteUpsert], Except.ok (some ()))
  | RemoteSaveOutcome.throws => ([SaveEv.remoteUpsert], Except.error ())

/-- Model of `updateSettings` (part_000 151-206): flat backup write, IndexedDB write,
in-memory update, then — only when Supabase is configured (`cfg`) — the
remote upsert inside a try/catch.  An `{ error }` result is only logged; a
throw is caught.  The duplicated `!isSupabaseConfigured` branches at lines
186-200 sit inside the configured-only block, so they are dead; were they
ever reached, the `ReferenceError` on their undefined variables would be
swallowed by the same catch, so they are modelled as returning normally. -/
def updateSettings (cfg idb flatFails dbFails : Bool) (ro : RemoteSaveOutcome) :
    List SaveEv × Except Unit Unit :=
  let t1 := (saveLocalSettingsEv flatFails).1
  let t2 := (saveLocalDbSettingsEv idb dbFails).1
  let t3 := [SaveEv.memUpdate]
  if ¬cfg then (t1 ++ t2 ++ t3, Except.ok ())
  else
    match upsertEv ro with
    | (t4, Except.error _) => (t1 ++ t2 ++ t3 ++ t4, Except.ok ())
    | (t4, Except.ok _) =>
        if ¬cfg then (t1 ++ t2 ++ t3 ++ t4, Except.ok ())
        else (t1 ++ t2 ++ t3 ++ t4, Except.ok ())

end UseSettings

/-! ## Message store accessor (`useMessages`, `src/hooks/useMessages.ts`) -/

namespace UseMessages

/-- The observable steps of one `addMessage` call. -/
inductive MsgEv where
  | memAppend
  | storeWrite
deriving DecidableEq, Repr

/-- In-memory message list plus the backing store. -/
structure MsgWorld where
  mem : List Message
  store : List LocalMessage
deriving DecidableEq, Repr

/-- The storage shape passed to `localDb.saveMessage` (useMessages 49-54). -/
def msgToInput (m : Message) : LocalDatabase.MsgInput :=
  { role := m.role, content := m.content, timestamp := m.timestamp,
    attachments := m.attachments }

/-- Model of `addMessage` (useMessages 41-59): append to the in-memory list first,
then — when IndexedDB is supported — await `saveMessage`, catching and
logging any failure without touching the in-memory list. -/
def addMessage (w : MsgWorld) (m : Message) (idb : Bool)
    (userId freshId createdAt : String) (openFails : Bool) :
    MsgWorld × List MsgEv × Except Unit Unit :=
  let mem2 := w.mem ++ [m]
  if idb then
    match LocalDatabase.saveMessage w.store userId (msgToInput m) freshId createdAt openFails with
    | Except.ok t =>
        ({ mem := mem2, store := t }, [MsgEv.memAppend, MsgEv.storeWrite], Except.ok ())
    | Except.error _ =>
        ({ mem := mem2, store := w.store }, [MsgEv.memAppend, MsgEv.storeWrite], Except.ok ())
  else ({ mem := mem2, store := w.store }, [MsgEv.memAppend], Except.ok ())

/-- Model of `getMessageCount` (useMessages 97-109): fall back to the in-memory list
length when IndexedDB is unsupported or the count query fails. -/
def getMessageCount (idb : Bool) (mem : List Message) (store : List LocalMessage)
    (userId : String) (fails : Bool) : Except Unit Nat :=
  if ¬idb then Except.ok mem.length
  else
    match LocalDatabase.getMessageCount store userId fails with
    | Except.ok n => Except.ok n
    | Except.error _ => Except.ok mem.length

end UseMessages

/-! ## Completion response handling (`sendMessage`, `src/App.tsx` 98-132) -/

namespace App

/-- The fields `sendMessage` reads from a non-2xx response body:
`errorData.error?.message` and `errorData.message`. -/
structure ErrorBody where
  errorMessage : Option String
  message : Option String
deriving DecidableEq, Repr

/-- JavaScript `a || b` on an optional string: `undefined` and `""` are
falsy. -/
def jsOr (a : Option String) (b : String) : String :=
  match a with
  | some s => if s == "" then b else s
  | none => b

/-- Derivation `errorData.error?.message || errorData.message || response.statusText`
(App.tsx 110); `response.json().catch(() => ({}))` makes a missing or
unparsable body the empty object. -/
def deriveErrorMsg (body : Option ErrorBody) (statusText : String) : String :=
  let errorData := body.getD { errorMessage := none, message := none }
  jsOr errorData.errorMessage (jsOr errorData.message statusText)

/-- One completion-endpoint response as `sendMessage` observes it:
`response.ok` decides the branch; a 2xx response carries
`data.choices?.[0]?.message?.content`. -/
inductive HttpResponse where
  | failure (status : Nat) (statusText : String) (body : Option ErrorBody)
  | success (content : Option String)
deriving DecidableEq, Repr

/-- What one `sendMessage` call does after the user message was appended:
the successive `setError` calls and the assistant message appended, if
any. -/
structure SendOutcome where
  errorSets : List (Option String)
  assistantContent : Option String
deriving DecidableEq, Repr

/-- The response handling of `sendMessage` (App.tsx 98-132): `setError(null)`
runs before the request; a non-ok response throws
`Error(`status` ++ " Error: " ++ derived message)`, which the catch turns
into exactly one `setError(message)`, and no assistant message is appended.
An ok response appends one assistant message whose content falls back to
`'No response from AI'` when `choices[0].message.content` is missing or
empty (App.tsx 121). -/
def handleResponse (r : HttpResponse) : SendOutcome :=
  match r with
  | HttpResponse.failure status statusText body =>
      let errorMsg := deriveErrorMsg body statusText
      { errorSets := [none, some (toString status ++ " Error: " ++ errorMsg)],
        assistantContent := none }
  | HttpResponse.success content =>
      { errorSets := [none],
        assistantContent := some (jsOr content "No response from AI") }

end App

/-! ## Claims -/

/-- C1: for every userId and settings value, `saveSettings` then
`loadSettings` returns a record whose `api_key`, `base_url` and `model`
equal those saved; repeated `saveSettings` calls with the same userId keep
exactly one row for that user, reusing the existing row's primary key and
`created_at`, never creating a second row.  The hypotheses are the store's
own invariants: primary keys are unique (`keyPath: 'id'`), the fresh UUID
is unused, and the unique `user_id` index admits at most one row per
user. -/
theorem save_load_settings_roundtrip (tbl : List XAICoder.LocalSettings) (u : String)
    (s : XAICoder.SettingsInput) (freshId nowS : String)
    (hnd : (tbl.map (fun q => q.id)).Nodup)
    (hFresh : ∀ q ∈ tbl, q.id ≠ freshId)
    (hUniq : tbl.countP (fun q => q.user_id == u) ≤ 1) :
    (∃ row, XAICoder.LocalDatabase.loadSettings
        (XAICoder.LocalDatabase.saveSettings tbl u s freshId nowS) u = some row ∧
        row.api_key = s.api_key ∧ row.base_url = s.base_url ∧ row.model = s.model) ∧
    (XAICoder.LocalDatabase.saveSettings tbl u s freshId nowS).countP
        (fun q => q.user_id == u) = 1 ∧
    (∀ old, XAICoder.LocalDatabase.indexGetSettings tbl u = some old →
      ∃ row, XAICoder.LocalDatabase.loadSettings
          (XAICoder.LocalDatabase.saveSettings tbl u s freshId nowS) u = some row ∧
          row.id = old.id ∧ row.created_at = old.created_at) ∧
    (∀ calls old, XAICoder.LocalDatabase.loadSettings tbl u = some old →
      ∃ row, XAICoder.LocalDatabase.loadSettings
          (XAICoder.LocalDatabase.saveSettingsSeq u tbl calls) u = some row ∧
          row.id = old.id ∧ row.created_at = old.created_at ∧
          (XAICoder.LocalDatabase.saveSettingsSeq u tbl calls).countP
            (fun q => q.user_id == u) = tbl.countP (fun q => q.user_id == u)) := by
  refine ⟨?_, ?_, ?_, ?_⟩
  · obtain ⟨row, h1, _, h2, h3, h4⟩ :=
      XAICoder.LocalDatabase.saveSettings_load tbl u s freshId nowS hnd hFresh
    exact ⟨row, h1, h2, h3, h4⟩
  · exact XAICoder.LocalDatabase.saveSettings_count_one tbl u s freshId nowS hnd hFresh hUniq
  · intro old hOld
    exact XAICoder.LocalDatabase.saveSettings_preserves_key tbl u s freshId nowS old hnd hOld
  · intro calls old hOld
    obtain ⟨row, h1, h2, h3, h4, _⟩ :=
      XAICoder.LocalDatabase.saveSettingsSeq_maintains u calls tbl old hnd hOld
    exact ⟨row, h1, h2, h3, h4⟩

/-- Witness for C1 at a concrete store holding one row for `"u"`. -/
theorem save_load_settings_roundtrip_witness :
    ∃ row, XAICoder.LocalDatabase.loadSettings
        (XAICoder.LocalDatabase.saveSettings
          [{ id := "id0", user_id := "u", api_key := "k0", base_url := "b0",
             model := "m0", created_at := "c0", updated_at := "t0" }]
          "u" { api_key := "k1", base_url := "b1", model := "m1" } "id1" "t1") "u"
        = some row ∧
      row.api_key = "k1" ∧ row.base_url = "b1" ∧ row.model = "m1" :=
  (save_load_settings_roundtrip
    [{ id := "id0", user_id := "u", api_key := "k0", base_url := "b0",
       model := "m0", created_at := "c0", updated_at := "t0" }]
    "u" { api_key := "k1", base_url := "b1", model := "m1" } "id1" "t1"
    (by decide) (by decide) (by decide)).1

/-- C4: `updateSettings` always performs the flat backup write, the object
store write and the in-memory update, in that order, attempts the remote
upsert exactly when Supabase is configured, and never rejects — whatever
the local failure flags and the remote outcome. -/
theorem update_settings_protocol (cfg flatFails dbFails : Bool)
    (ro : XAICoder.UseSettings.RemoteSaveOutcome) :
    XAICoder.UseSettings.updateSettings cfg true flatFails dbFails ro
      = ([XAICoder.UseSettings.SaveEv.flatWrite, XAICoder.UseSettings.SaveEv.dbWrite,
          XAICoder.UseSettings.SaveEv.memUpdate]
          ++ (if cfg then [XAICoder.UseSettings.SaveEv.remoteUpsert] else []),
         Except.ok ()) := by
  cases cfg <;> cases ro <;> rfl

/-- C7: `clearAllData` resolves at the second success callback (not the
first) and empties both tables, so any subsequent `loadSettings` finds
nothing and any subsequent `loadMessages` returns the empty list. -/
theorem clear_all_data_spec (db : XAICoder.LocalDatabase.DBState) (u : String)
    (lim : Option Int) (now : Int) :
    (XAICoder.LocalDatabase.clearAllData db).2 = some 2 ∧
    XAICoder.LocalDatabase.loadSettings
      (XAICoder.LocalDatabase.clearAllData db).1.settings u = none ∧
    XAICoder.LocalDatabase.loadMessages
      (XAICoder.LocalDatabase.clearAllData db).1.messages u lim now = [] := by
  refine ⟨rfl, rfl, rfl⟩

/-- C8: a non-2xx completion response sets exactly one user-visible error,
whose text contains the derived error message
(`error.message`, else `message`, else the status text), and appends no
assistant message. -/
theorem non_ok_response_behavior (status : Nat) (statusText : String)
    (body : Option XAICoder.App.ErrorBody) :
    (XAICoder.App.handleResponse
        (XAICoder.App.HttpResponse.failure status statusText body)).assistantContent
      = none ∧
    (XAICoder.App.handleResponse
        (XAICoder.App.HttpResponse.failure status statusText body)).errorSets.countP
        (fun e => e.isSome) = 1 ∧
    ∃ banner pre post,
      (XAICoder.App.handleResponse
          (XAICoder.App.HttpResponse.failure status statusText body)).errorSets.getLast?
        = some (some banner) ∧
      banner = pre ++ XAICoder.App.deriveErrorMsg body statusText ++ post := by
  refine ⟨rfl, by simp [XAICoder.App.handleResponse], ?_⟩
  refine ⟨toString status ++ " Error: " ++ XAICoder.App.deriveErrorMsg body statusText,
    toString status ++ " Error: ", "", by simp [XAICoder.App.handleResponse], ?_⟩
  simp

/-- C9: `addMessage` appends to the in-memory list before the storage
write, never rejects, and a failed `saveMessage` leaves the store unchanged
without rolling the in-memory append back. -/
theorem add_message_optimistic (w : XAICoder.UseMessages.MsgWorld) (m : XAICoder.Message)
    (userId freshId createdAt : String) (openFails : Bool) :
    (XAICoder.UseMessages.addMessage w m true userId freshId createdAt openFails).1.mem
      = w.mem ++ [m] ∧
    (XAICoder.UseMessages.addMessage w m true userId freshId createdAt openFails).2.1
      = [XAICoder.UseMessages.MsgEv.memAppend, XAICoder.UseMessages.MsgEv.storeWrite] ∧
    (XAICoder.UseMessages.addMessage w m true userId freshId createdAt openFails).2.2
      = Except.ok () ∧
    (XAICoder.UseMessages.addMessage w m true userId freshId createdAt openFails).1.store
      = (if openFails || w.store.any (fun r => r.id == freshId) then w.store
         else w.store ++ [XAICoder.LocalDatabase.mkMessageRow userId
            (XAICoder.UseMessages.msgToInput m) freshId createdAt]) := by
  cases openFails with
  | true =>
      refine ⟨?_, ?_, ?_, ?_⟩ <;>
        simp [XAICoder.UseMessages.addMessage, XAICoder.LocalDatabase.saveMessage]
  | false =>
      by_cases hAny : w.store.any (fun r => r.id == freshId) = true
      · refine ⟨?_, ?_, ?_, ?_⟩ <;>
          simp [XAICoder.UseMessages.addMessage, XAICoder.LocalDatabase.saveMessage, hAny]
      · have hAny' : w.store.any (fun r => r.id == freshId) = false :=
          Bool.eq_false_iff.mpr hAny
        refine ⟨?_, ?_, ?_, ?_⟩ <;>
          simp [XAICoder.UseMessages.addMessage, XAICoder.LocalDatabase.saveMessage, hAny']

/-- C10: on a 2xx response with missing or empty
`choices[0].message.content`, the appended assistant message has content
exactly `'No response from AI'`. -/
theorem empty_content_fallback (content : Option String)
    (h : content = none ∨ content = some "") :
    (XAICoder.App.handleResponse
        (XAICoder.App.HttpResponse.success content)).assistantContent
      = some "No response from AI" := by
  rcases h with h | h <;> subst h <;> rfl

/-- Witness for C10 at `content = none`. -/
theorem empty_content_fallback_witness :
    (XAICoder.App.handleResponse
        (XAICoder.App.HttpResponse.success none)).assistantContent
      = some "No response from AI" :=
  empty_content_fallback none (Or.inl rfl)

/-- C6 counterexample: with two messages in the in-memory list and a
failing count query, the hook-level count operation returns the in-memory
length 2, not 0 — refuting "returns 0 on any failure". -/
theorem message_count_failure_cex :
    XAICoder.UseMessages.getMessageCount true
      [{ role := XAICoder.Role.user, content := "a", timestamp := 1, attachments := none },
       { role := XAICoder.Role.assistant, content := "b", timestamp := 2, attachments := none }]
      [] "u" true = Except.ok 2 ∧
    XAICoder.UseMessages.getMessageCount true
      [{ role := XAICoder.Role.user, content := "a", timestamp := 1, attachments := none },
       { role := XAICoder.Role.assistant, content := "b", timestamp := 2, attachments := none }]
      [] "u" true ≠ Except.ok 0 := by
  refine ⟨rfl, ?_⟩
  intro h
  simpa [XAICoder.UseMessages.getMessageCount,
    XAICoder.LocalDatabase.getMessageCount] using h

/-- C6 (amended): the hook-level message-count operation never rejects;
whenever the underlying count query fails it returns the in-memory message
list's length (after logging) rather than the stored count.
(`LocalDatabase.getMessageCount` itself rethrows; the hook catches it.) -/
theorem message_count_no_reject (idb : Bool) (mem : List XAICoder.Message)
    (store : List XAICoder.LocalMessage) (u : String) (fails : Bool) :
    (∃ n, XAICoder.UseMessages.getMessageCount idb mem store u fails = Except.ok n) ∧
    (fails = true → idb = true →
      XAICoder.UseMessages.getMessageCount idb mem store u fails
        = Except.ok mem.length) := by
  cases idb <;> cases fails <;>
    simp [XAICoder.UseMessages.getMessageCount, XAICoder.LocalDatabase.getMessageCount]

/-- Witness for C6 (amended) at a failing query with one in-memory
message. -/
theorem message_count_no_reject_witness :
    (∃ n, XAICoder.UseMessages.getMessageCount true
        [{ role := XAICoder.Role.user, content := "a", timestamp := 1, attachments := none }]
        [] "u" true = Except.ok n) ∧
    XAICoder.UseMessages.getMessageCount true
        [{ role := XAICoder.Role.user, content := "a", timestamp := 1, attachments := none }]
        [] "u" true = Except.ok 1 :=
  ⟨(message_count_no_reject true
      [{ role := XAICoder.Role.user, content := "a", timestamp := 1, attachments := none }]
      [] "u" true).1,
   (message_count_no_reject true
      [{ role := XAICoder.Role.user, content := "a", timestamp := 1, attachments := none }]
      [] "u" true).2 rfl rfl⟩

/-- C2: when the flat backup and the object store both hold a non-empty API
key and the remote tier fails (throws — including the unconfigured null
client — or resolves with an error), the resolved settings are the object
store's values, preferred over the flat backup's. -/
theorem load_settings_prefers_object_store (flatS : XAICoder.Settings)
    (db : List XAICoder.LocalSettings) (dbRow : XAICoder.LocalSettings)
    (rem : XAICoder.UseSettings.RemoteOutcome) (u freshId nowS : String)
    (hFlat : flatS.apiKey ≠ "")
    (hRow : XAICoder.LocalDatabase.indexGetSettings db u = some dbRow)
    (hKey : dbRow.api_key ≠ "")
    (hRem : rem = XAICoder.UseSettings.RemoteOutcome.throws ∨
            rem = XAICoder.UseSettings.RemoteOutcome.queryError) :
    (XAICoder.UseSettings.loadSettings { flat := some flatS, db := db, remote := rem }
        u true freshId nowS).1
      = { apiKey := dbRow.api_key, baseUrl := dbRow.base_url, model := dbRow.model } := by
  have hldb : XAICoder.UseSettings.loadLocalDbSettings db u true
      = some { apiKey := dbRow.api_key, baseUrl := dbRow.base_url, model := dbRow.model } := by
    simp [XAICoder.UseSettings.loadLocalDbSettings, XAICoder.LocalDatabase.loadSettings, hRow]
  rcases hRem with h | h <;> subst h <;>
    simp [XAICoder.UseSettings.loadSettings, hldb, hKey]

/-- Witness for C2: flat backup `"A"`, object store `"B"`, remote query
resolves with an error — the resolved key is `"B"`. -/
theorem load_settings_prefers_object_store_witness :
    (XAICoder.UseSettings.loadSettings
        { flat := some { apiKey := "A", baseUrl := "bu", model := "mo" },
          db := [{ id := "id0", user_id := "u", api_key := "B", base_url := "b1",
                   model := "m1", created_at := "c", updated_at := "t" }],
          remote := XAICoder.UseSettings.RemoteOutcome.queryError }
        "u" true "f" "n").1
      = { apiKey := "B", baseUrl := "b1", model := "m1" } :=
  load_settings_prefers_object_store
    { apiKey := "A", baseUrl := "bu", model := "mo" }
    [{ id := "id0", user_id := "u", api_key := "B", base_url := "b1",
       model := "m1", created_at := "c", updated_at := "t" }]
    { id := "id0", user_id := "u", api_key := "B", base_url := "b1",
      model := "m1", created_at := "c", updated_at := "t" }
    XAICoder.UseSettings.RemoteOutcome.queryError "u" "f" "n"
    (by decide) (by decide) (by decide) (Or.inr rfl)

/-- C3: when the remote query returns a row, the resolved settings equal
the remote values and both local tiers are rewritten with them, so a
subsequent direct read of the flat backup or of the object store returns
the remote values. -/
theorem load_settings_remote_wins (flat : Option XAICoder.Settings)
    (db : List XAICoder.LocalSettings) (r : XAICoder.UseSettings.RemoteRow)
    (u freshId nowS : String)
    (hnd : (db.map (fun q => q.id)).Nodup)
    (hFresh : ∀ q ∈ db, q.id ≠ freshId) :
    (XAICoder.UseSettings.loadSettings
        { flat := flat, db := db, remote := XAICoder.UseSettings.RemoteOutcome.row r }
        u true freshId nowS).1
      = { apiKey := r.api_key, baseUrl := r.base_url, model := r.model } ∧
    XAICoder.UseSettings.loadLocalSettings
      (XAICoder.UseSettings.loadSettings
        { flat := flat, db := db, remote := XAICoder.UseSettings.RemoteOutcome.row r }
        u true freshId nowS).2.flat
      = { apiKey := r.api_key, baseUrl := r.base_url, model := r.model } ∧
    ∃ row, XAICoder.LocalDatabase.loadSettings
        (XAICoder.UseSettings.loadSettings
          { flat := flat, db := db, remote := XAICoder.UseSettings.RemoteOutcome.row r }
          u true freshId nowS).2.db u = some row ∧
      row.api_key = r.api_key ∧ row.base_url = r.base_url ∧ row.model = r.model := by
  refine ⟨rfl, rfl, ?_⟩
  have hdb : (XAICoder.UseSettings.loadSettings
      { flat := flat, db := db, remote := XAICoder.UseSettings.RemoteOutcome.row r }
      u true freshId nowS).2.db
      = XAICoder.LocalDatabase.saveSettings db u
          { api_key := r.api_key, base_url := r.base_url, model := r.model } freshId nowS := by
    simp [XAICoder.UseSettings.loadSettings, XAICoder.UseSettings.saveLocalDbSettings]
  rw [hdb]
  obtain ⟨row, h1, _, h2, h3, h4⟩ := XAICoder.LocalDatabase.saveSettings_load db u
    { api_key := r.api_key, base_url := r.base_url, model := r.model } freshId nowS hnd hFresh
  exact ⟨row, h1, h2, h3, h4⟩

/-- Witness for C3: remote row `"C"` rewrites both local tiers. -/
theorem load_settings_remote_wins_witness :
    (XAICoder.UseSettings.loadSettings
        { flat := some { apiKey := "A", baseUrl := "bu", model := "mo" },
          db := [],
          remote := XAICoder.UseSettings.RemoteOutcome.row
            { user_id := "u", api_key := "C", base_url := "b2", model := "m2" } }
        "u" true "f" "n").1
      = { apiKey := "C", baseUrl := "b2", model := "m2" } ∧
    XAICoder.UseSettings.loadLocalSettings
      (XAICoder.UseSettings.loadSettings
        { flat := some { apiKey := "A", baseUrl := "bu", model := "mo" },
          db := [],
          remote := XAICoder.UseSettings.RemoteOutcome.row
            { user_id := "u", api_key := "C", base_url := "b2", model := "m2" } }
        "u" true "f" "n").2.flat
      = { apiKey := "C", baseUrl := "b2", model := "m2" } ∧
    ∃ row, XAICoder.LocalDatabase.loadSettings
        (XAICoder.UseSettings.loadSettings
          { flat := some { apiKey := "A", baseUrl := "bu", model := "mo" },
            db := [],
            remote := XAICoder.UseSettings.RemoteOutcome.row
              { user_id := "u", api_key := "C", base_url := "b2", model := "m2" } }
          "u" true "f" "n").2.db "u" = some row ∧
      row.api_key = "C" ∧ row.base_url = "b2" ∧ row.model = "m2" :=
  load_settings_remote_wins (some { apiKey := "A", baseUrl := "bu", model := "mo" }) []
    { user_id := "u", api_key := "C", base_url := "b2", model := "m2" }
    "u" "f" "n" (by decide) (by decide)

/-- Relation `keyLE` implies non-decreasing timestamps. -/
lemma keyLE_ts {a b : LocalMessage} (h : LocalDatabase.keyLE a b) :
    a.timestamp ≤ b.timestamp := by
  rcases h with h | ⟨h, _⟩
  · exact le_of_lt h
  · exact le_of_eq h

/-- C5 counterexample: with one stored in-range message and `limit = 0`,
`loadMessages` returns 1 message, not at most 0 — the JavaScript guard
`!limit` treats `0` as "no limit". -/
theorem load_messages_limit_zero_cex :
    ¬ ((LocalDatabase.loadMessages
        [{ id := "m1", user_id := "u", role := Role.user, content := "hi",
           timestamp := 1, attachments := none, created_at := "t" }]
        "u" (some 0) 5).length ≤ 0) := by
  decide

/-- C5 (amended): `loadMessages` returns rows of the requested user with
timestamps inside `[0, now]` in non-decreasing timestamp order; a
**positive** limit returns the earliest-in-range prefix of that list (a
limit of 0 is treated as no limit); and a save sequence with strictly
increasing in-range timestamps is returned in call order. -/
theorem load_messages_ordered (tbl : List LocalMessage) (u : String) (lim : Option Int)
    (now : Int) (items : List LocalDatabase.SaveItem) (tbl0 : List LocalMessage)
    (hNoU : ∀ r ∈ tbl0, r.user_id ≠ u)
    (hnd : (items.map (fun it => it.freshId)).Nodup)
    (hFresh : ∀ it ∈ items, ∀ r ∈ tbl0, r.id ≠ it.freshId)
    (hMono : items.Pairwise (fun a b => a.msg.timestamp < b.msg.timestamp))
    (hRange : ∀ it ∈ items, 0 ≤ it.msg.timestamp ∧ it.msg.timestamp ≤ now) :
    (LocalDatabase.loadMessages tbl u lim now).Pairwise
        (fun a b => a.timestamp ≤ b.timestamp) ∧
    (∀ r ∈ LocalDatabase.loadMessages tbl u lim now,
        r.user_id = u ∧ 0 ≤ r.timestamp ∧ r.timestamp ≤ now) ∧
    (∀ mI : Int, 1 ≤ mI →
        LocalDatabase.loadMessages tbl u (some mI) now
          = (LocalDatabase.loadMessages tbl u none now).take mI.toNat) ∧
    (∃ tbl1, LocalDatabase.saveAll u tbl0 items = Except.ok tbl1 ∧
      (LocalDatabase.loadMessages tbl1 u none now).map
          (fun r => (r.role, r.content, r.timestamp))
        = items.map (fun it => (it.msg.role, it.msg.content, it.msg.timestamp))) := by
  have hbase : ∀ (tbl' : List LocalMessage) (lim' : Option Int), ∃ k,
      LocalDatabase.loadMessages tbl' u lim' now
        = (List.insertionSort LocalDatabase.keyLE
            (tbl'.filter (LocalDatabase.msgInRange u now))).take k := by
    intro tbl' lim'
    obtain ⟨k, hk⟩ := @LocalDatabase.loadLoop_pre lim'
      (List.insertionSort LocalDatabase.keyLE
        (tbl'.filter (LocalDatabase.msgInRange u now))) []
    exact ⟨k, by simpa [LocalDatabase.loadMessages] using hk⟩
  refine ⟨?_, ?_, ?_, ?_⟩
  · obtain ⟨k, hk⟩ := hbase tbl lim
    rw [hk]
    have hs := List.sorted_insertionSort LocalDatabase.keyLE
      (tbl.filter (LocalDatabase.msgInRange u now))
    have hp : (List.insertionSort LocalDatabase.keyLE
        (tbl.filter (LocalDatabase.msgInRange u now))).take k
        |>.Pairwise LocalDatabase.keyLE :=
      List.Pairwise.sublist (List.take_sublist _ _) hs
    exact hp.imp (fun hab => keyLE_ts hab)
  · intro r hr
    obtain ⟨k, hk⟩ := hbase tbl lim
    rw [hk] at hr
    have hr2 : r ∈ List.insertionSort LocalDatabase.keyLE
        (tbl.filter (LocalDatabase.msgInRange u now)) :=
      (List.take_sublist _ _).subset hr
    have hr3 : r ∈ tbl.filter (LocalDatabase.msgInRange u now) :=
      (List.perm_insertionSort LocalDatabase.keyLE _).subset hr2
    have hr4 := List.of_mem_filter hr3
    simp only [LocalDatabase.msgInRange, Bool.and_eq_true, beq_iff_eq,
      decide_eq_true_eq] at hr4
    exact ⟨hr4.1.1, hr4.1.2, hr4.2⟩
  · intro mI hm
    have h1 : (0 : Nat) < mI.toNat := by omega
    have hsome : LocalDatabase.loadMessages tbl u (some mI) now
        = (List.insertionSort LocalDatabase.keyLE
            (tbl.filter (LocalDatabase.msgInRange u now))).take mI.toNat := by
      unfold LocalDatabase.loadMessages
      rw [LocalDatabase.loadLoop_take_pos hm _ [] (by simpa using h1)]
      simp
    have hnone : LocalDatabase.loadMessages tbl u none now
        = List.insertionSort LocalDatabase.keyLE
            (tbl.filter (LocalDatabase.msgInRange u now)) := by
      unfold LocalDatabase.loadMessages
      rw [LocalDatabase.loadLoop_all (Or.inl rfl)]
      simp
    rw [hsome, hnone]
  · refine ⟨tbl0 ++ items.map (fun it =>
      LocalDatabase.mkMessageRow u it.msg it.freshId it.createdAt), ?_, ?_⟩
    · exact LocalDatabase.saveAll_eq u items tbl0 hnd hFresh
    · have hf0 : tbl0.filter (LocalDatabase.msgInRange u now) = [] := by
        rw [List.filter_eq_nil_iff]
        intro r hrmem habs
        simp only [LocalDatabase.msgInRange, Bool.and_eq_true, beq_iff_eq,
          decide_eq_true_eq] at habs
        exact hNoU r hrmem habs.1.1
      have hfrows : (items.map (fun it =>
            LocalDatabase.mkMessageRow u it.msg it.freshId it.createdAt)).filter
            (LocalDatabase.msgInRange u now)
          = items.map (fun it =>
            LocalDatabase.mkMessageRow u it.msg it.freshId it.createdAt) := by
        rw [List.filter_eq_self]
        intro r hrmem
        obtain ⟨it, hit, hreq⟩ := List.mem_map.mp hrmem
        subst hreq
        have hx := hRange it hit
        simp only [LocalDatabase.msgInRange, LocalDatabase.mkMessageRow,
          Bool.and_eq_true, beq_iff_eq, decide_eq_true_eq]
        exact ⟨⟨trivial, hx.1⟩, hx.2⟩
      have hsorted : List.Sorted LocalDatabase.keyLE (items.map (fun it =>
          LocalDatabase.mkMessageRow u it.msg it.freshId it.createdAt)) :=
        List.Pairwise.map _ (fun a b hab => Or.inl hab) hMono
      have hload : LocalDatabase.loadMessages (tbl0 ++ items.map (fun it =>
            LocalDatabase.mkMessageRow u it.msg it.freshId it.createdAt)) u none now
          = items.map (fun it =>
            LocalDatabase.mkMessageRow u it.msg it.freshId it.createdAt) := by
        unfold LocalDatabase.loadMessages
        rw [List.filter_append, hf0, hfrows, List.nil_append,
          hsorted.insertionSort_eq, LocalDatabase.loadLoop_all (Or.inl rfl)]
        simp
      rw [hload, List.map_map]
      apply List.map_congr_left
      intro it _
      rfl

/-- Witness for C5 (amended): two saves with timestamps 1 and 2 come back
in call order. -/
theorem load_messages_ordered_witness :
    ∃ tbl1, LocalDatabase.saveAll "u" []
        [{ msg := { role := Role.user, content := "a", timestamp := 1, attachments := none },
           freshId := "i1", createdAt := "t1" },
         { msg := { role := Role.assistant, content := "b", timestamp := 2, attachments := none },
           freshId := "i2", createdAt := "t2" }] = Except.ok tbl1 ∧
      (LocalDatabase.loadMessages tbl1 "u" none 5).map
          (fun r => (r.role, r.content, r.timestamp))
        = [(Role.user, "a", (1 : Int)), (Role.assistant, "b", (2 : Int))] := by
  have h := (load_messages_ordered [] "u" none 5
    [{ msg := { role := Role.user, content := "a", timestamp := 1, attachments := none },
       freshId := "i1", createdAt := "t1" },
     { msg := { role := Role.assistant, content := "b", timestamp := 2, attachments := none },
       freshId := "i2", createdAt := "t2" }] []
    (by simp) (by decide) (by simp) (by decide) (by decide)).2.2.2
  simpa using h

end XAICoder
